import Mathlib

/-!
# go-runner: lifecycle coordinator

A shallow embedding of `main.go` (package `runner`).  The coordinator's own
sequential execution path is modelled: every observable step it takes (a line
printed, a method called on a service, a goroutine issued, the signal wait, the
process exit) is an `Event`, and every method of `Runner` is a function from the
receiver's state to an `Outcome` carrying the final state, the events emitted
and how the call ended.  What a launched service does on its own goroutine is
outside the model.
-/

namespace GoRunner

/-! ## Go values -/

/-- Predeclared Go types that may occur as the dynamic type of a value. -/
inductive Basic
  | bool
  | int
  | int64
  | uint
  | float64
  | string
  deriving DecidableEq, Repr

/-- Name of a predeclared type, as `reflect.Type.String` renders it. -/
def Basic.String : Basic → String
  | .bool => "bool"
  | .int => "int"
  | .int64 => "int64"
  | .uint => "uint"
  | .float64 => "float64"
  | .string => "string"

/-- Dynamic types of Go values: predeclared types, defined types of a package,
pointers and slices. -/
inductive GoType
  | basic (k : Basic)
  | defined (pkg name : String)
  | pointer (elem : GoType)
  | slice (elem : GoType)
  deriving DecidableEq, Repr

/-- Modelled from the spec: `reflect.Type.String` of the standard library, which
`Runner.Name` calls for the fallback name ("a runtime-derived type identifier").
A defined type prints as `pkg.Name`, a pointer as `*T`, a slice as `[]T`. -/
def GoType.String : GoType → String
  | .basic k => k.String
  | .defined pkg name => pkg ++ "." ++ name
  | .pointer elem => "*" ++ elem.String
  | .slice elem => "[]" ++ elem.String

/-- A non-nil dynamic value, described by what the coordinator can observe of
it: its dynamic type, its identity, and which of the methods `Name`, `Init`,
`Run`/`Exit` its method set has, with what `Name` and `Exit` return. -/
structure Service where
  /-- dynamic type, what `reflect.TypeOf` returns -/
  type : GoType
  /-- identity of the value -/
  addr : Nat
  /-- Is `some n` when the method set has `Name() string`, which returns `n` -/
  namer : Option String
  /-- the method set has `Init()` -/
  initiator : Bool
  /-- the method set has `Exit() error` and `Run()` -/
  irunner : Bool
  /-- the error `Exit` returns when it is called (`none` is a nil error) -/
  exitErr : Option String
  deriving DecidableEq, Repr

/-- A value of type `interface{}`: nil, or a dynamic value. -/
abbrev Value := Option Service

/-- A value of the interface type `IRunner`, as `Add` receives it: nil, or a
dynamic value whose method set has `Exit` and `Run`. -/
structure IRunner where
  val : Value
  impl : ∀ s, val = some s → s.irunner = true

/-- The nil value of type `IRunner`. -/
def IRunner.nil : IRunner := ⟨none, by intro s h; cases h⟩

/-- A service with `Exit` and `Run` seen as a value of type `IRunner`. -/
def IRunner.of (s : Service) (h : s.irunner = true) : IRunner :=
  ⟨some s, by intro t ht; cases ht; exact h⟩

/-- Go `v.(INamer)`: succeeds on a non-nil value with a `Name` method. -/
def assertINamer : Value → Option Service
  | some s => if s.namer.isSome then some s else none
  | none => none

/-- Go `v.(Initiator)`: succeeds on a non-nil value with an `Init` method. -/
def assertInitiator : Value → Option Service
  | some s => if s.initiator then some s else none
  | none => none

/-- Go `v.(IRunner)`: succeeds on a non-nil value with `Exit` and `Run`. -/
def assertIRunner : Value → Option Service
  | some s => if s.irunner then some s else none
  | none => none

/-- Go `reflect.TypeOf(v)`: the dynamic type, nil for a nil interface value. -/
def reflectTypeOf : Value → Option GoType
  | some s => some s.type
  | none => none

/-! ## Events, state and the execution monad -/

/-- Signals `Run` subscribes to with `signal.Notify`. -/
inductive Signal
  | SIGINT
  | SIGTERM
  deriving DecidableEq, Repr

/-- Methods the coordinator calls on a service. -/
inductive Method
  | Name
  | Init
  | Exit
  deriving DecidableEq, Repr

/-- Observable steps of the coordinator. -/
inductive Event
  /-- synchronous call of a method of a service, which returns -/
  | call (s : Service) (m : Method)
  /-- Go `go s.Run()`: the start of the service is issued on a new goroutine -/
  | start (s : Service)
  /-- Go `fmt.Println`: one line on standard output (operands joined by blanks) -/
  | println (line : String)
  /-- Go `signal.Notify(interrupt, sigs...)` -/
  | notify (sigs : List Signal)
  /-- the `select` starts waiting on the `interrupt` channel -/
  | await
  /-- a signal is received from the `interrupt` channel -/
  | signal (sig : Signal)
  /-- Go `os.Exit(code)` -/
  | osExit (code : Int)
  deriving DecidableEq, Repr

/-- A logger collaborator, known only by its identity (the `Logger` interface). -/
structure LoggerRef where
  id : Nat
  deriving DecidableEq, Repr

/-- The coordinator: `type Runner struct { Services []interface{}; Logger Logger }`. -/
structure Runner where
  Services : List Value
  Logger : Option LoggerRef
  deriving DecidableEq, Repr

/-- How a call ends. -/
inductive Status (α : Type)
  /-- the call returns a value -/
  | returned (a : α)
  /-- a run-time panic unwinds the call -/
  | panicked (msg : String)
  /-- the call waits forever -/
  | blocked
  /-- the process has exited with a status code -/
  | exited (code : Int)
  deriving DecidableEq, Repr

/-- Result of running a method on a receiver: how it ended, the receiver's
final state, and the events emitted, oldest first. -/
structure Outcome (α : Type) where
  status : Status α
  runner : Runner
  trace : List Event
  deriving DecidableEq, Repr

/-- A computation on a `*Runner` receiver. -/
def Exec (α : Type) : Type := Runner → Outcome α

/-- Return without effect. -/
def Exec.pure {α : Type} (a : α) : Exec α :=
  fun r => ⟨.returned a, r, []⟩

/-- Sequencing: the continuation runs only when the first part returns. -/
def Exec.bind {α β : Type} (m : Exec α) (f : α → Exec β) : Exec β :=
  fun r =>
    match m r with
    | ⟨.returned a, r1, t1⟩ =>
      match f a r1 with
      | ⟨st, r2, t2⟩ => ⟨st, r2, t1 ++ t2⟩
    | ⟨.panicked msg, r1, t1⟩ => ⟨.panicked msg, r1, t1⟩
    | ⟨.blocked, r1, t1⟩ => ⟨.blocked, r1, t1⟩
    | ⟨.exited code, r1, t1⟩ => ⟨.exited code, r1, t1⟩

instance : Monad Exec where
  pure := Exec.pure
  bind := Exec.bind

/-- Emit one event. -/
def emit (e : Event) : Exec Unit :=
  fun r => ⟨.returned (), r, [e]⟩

/-- Read `runner.Services`. -/
def getServices : Exec (List Value) :=
  fun r => ⟨.returned r.Services, r, []⟩

/-- Assign `runner.Services`. -/
def setServices (xs : List Value) : Exec Unit :=
  fun r => ⟨.returned (), { r with Services := xs }, []⟩

/-- A run-time panic. -/
def goPanic {α : Type} (msg : String) : Exec α :=
  fun r => ⟨.panicked msg, r, []⟩

/-- The message of the panic raised by a method call on a nil interface value. -/
def nilDereference : String :=
  "runtime error: invalid memory address or nil pointer dereference"

/-- Go `for _, v := range xs { body }`. -/
def forRange (xs : List Value) (body : Value → Exec Unit) : Exec Unit :=
  match xs with
  | [] => pure ()
  | x :: rest => do
    body x
    forRange rest body

/-! ## Collaborators outside the repository -/

/-- The colouring functions of `github.com/fatih/color` the coordinator uses,
taken as a parameter. -/
structure Color where
  HiCyanString : String → String
  HiMagentaString : String → String
  CyanString : String → String
  HiYellowString : String → String
  HiGreenString : String → String

/-- Colouring switched off (`color.NoColor`): every function is the identity. -/
def Color.plain : Color := ⟨id, id, id, id, id⟩

/-- Go `fmt.Println(args...)`: the operands separated by blanks, on one line. -/
def fmtPrintln (args : List String) : Exec Unit :=
  emit (.println (" ".intercalate args))

/-- Go `s.Name()` on a value asserted to `INamer`. -/
def callName (s : Service) : Exec String := do
  emit (.call s .Name)
  pure (s.namer.getD "")

/-- Go `s.Init()` on a value asserted to `Initiator`. -/
def callInit (s : Service) : Exec Unit :=
  emit (.call s .Init)

/-- Go `s.Exit()` on a value asserted to `IRunner`; returns the service's error. -/
def callExit (s : Service) : Exec (Option String) := do
  emit (.call s .Exit)
  pure s.exitErr

/-- Go `go s.Run()`: issues the start and does not wait for it. -/
def goRun (s : Service) : Exec Unit :=
  emit (.start s)

/-- Go `reflect.TypeOf(v).String()`: a method call on the nil `reflect.Type`
panics. -/
def typeString : Option GoType → Exec String
  | some t => pure t.String
  | none => goPanic nilDereference

/-- Go `os.Exit(code)`. -/
def osExit {α : Type} (code : Int) : Exec α :=
  fun r => ⟨.exited code, r, [.osExit code]⟩

/-- Go `select { case <-interrupt: ... }`: waits on the channel; `none` is an
environment in which no subscribed signal ever arrives. -/
def awaitSignal (env : Option Signal) : Exec Signal :=
  match env with
  | some sig => fun r => ⟨.returned sig, r, [.await, .signal sig]⟩
  | none => fun r => ⟨.blocked, r, [.await]⟩

/-! ## The source -/

/-- The package variable `v`, set by `init`. -/
def v : String := "0.6.1"

/-- The receiver `Runner{}` built by `New`. -/
def Runner.zero : Runner := ⟨[], none⟩

/-- Source `func (runner *Runner) Log(message string)`. -/
def Runner.Log (c : Color) (message : String) : Exec Unit :=
  fmtPrintln [c.HiYellowString "Runner: ", message]

/-- Source `func (runner *Runner) Intro()`. -/
def Runner.Intro (c : Color) : Exec Unit := do
  fmtPrintln ["\n========================================================="]
  fmtPrintln ["\n\t ", c.HiCyanString "Runner service", " ", v]
  fmtPrintln ["\n========================================================="]

/-- Source `func New() Runner`: the outcome's `runner` is the value returned. -/
def New (c : Color) : Outcome Unit :=
  Runner.Intro c Runner.zero

/-- Source `func (runner *Runner) Name(service interface{}) string`. -/
def Runner.Name (service : Value) : Exec String :=
  match assertINamer service with
  | some s => callName s
  | none => typeString (reflectTypeOf service)

/-- Source `func (runner *Runner) Add(service IRunner)`. -/
def Runner.Add (c : Color) (service : IRunner) : Exec Unit := do
  let name ← Runner.Name service.val
  Runner.Log c ("Adding service " ++ c.HiMagentaString name)
  let services ← getServices
  setServices (services ++ [service.val])

/-- Source `func (runner *Runner) InitServices()`. -/
def Runner.InitServices (c : Color) : Exec Unit := do
  let services ← getServices
  forRange services fun v => do
    match assertInitiator v with
    | some s => callInit s
    | none => pure ()
    let name ← Runner.Name v
    Runner.Log c ("Service " ++ c.CyanString name ++ " initialized")

/-- Source `func (runner *Runner) Exit()`. -/
def Runner.Exit : Exec Unit := do
  let services ← getServices
  forRange services fun v => do
    match assertIRunner v with
    | some s => do
      let _ ← callExit s
      pure ()
    | none => pure ()

/-- The launch loop of `Run`. -/
def Runner.launch (c : Color) : Exec Unit := do
  let services ← getServices
  forRange services fun v => do
    let name ← Runner.Name v
    Runner.Log c ("Service " ++ c.HiYellowString name ++ " launching...")
    match assertIRunner v with
    | some s => goRun s
    | none => pure ()
    let name ← Runner.Name v
    Runner.Log c ("Service " ++ c.HiGreenString name ++ " launched")

/-- Source `func (runner *Runner) Run()`, in an environment that delivers `env` on the
`interrupt` channel.  `os.Exit` does not return, so the `time.Sleep` after the
`select` is never reached. -/
def Runner.Run (c : Color) (env : Option Signal) : Exec Unit := do
  Runner.InitServices c
  Runner.Log c "Starting to run services"
  Runner.launch c
  fmtPrintln ["........................................................."]
  emit (.notify [.SIGINT, .SIGTERM])
  let _ ← awaitSignal env
  Runner.Exit
  Runner.Log c (c.HiGreenString "Exiting" ++ " OK")
  osExit 0

/-! ## Clients and observations used to state the properties -/

/-- Client code `runner.Add(a1); ...; runner.Add(an)`: a client registering services. -/
def addAll (c : Color) (args : List IRunner) : Exec Unit :=
  match args with
  | [] => pure ()
  | a :: rest => do
    Runner.Add c a
    addAll c rest

/-- Client code `runner := New(); runner.Add(a1); ...; runner.Add(an)`: the outcome of the
`Add` calls on a new runner. -/
def registered (c : Color) (args : List IRunner) : Outcome Unit :=
  addAll c args (New c).runner

/-- The services of the `Init` calls of a trace, oldest first. -/
def initCalls (t : List Event) : List Service :=
  t.filterMap fun e =>
    match e with
    | .call s .Init => some s
    | _ => none

/-- The services of the start events of a trace, oldest first. -/
def starts (t : List Event) : List Service :=
  t.filterMap fun e =>
    match e with
    | .start s => some s
    | _ => none

/-- The services of the `Exit` calls (stops) of a trace, oldest first. -/
def stops (t : List Event) : List Service :=
  t.filterMap fun e =>
    match e with
    | .call s .Exit => some s
    | _ => none

/-- An event in which the coordinator touches a service: a method call or a
start. -/
def Event.onService : Event → Bool
  | .call _ _ => true
  | .start _ => true
  | _ => false

/-- Events that only the shutdown path emits. -/
def Event.late : Event → Bool
  | .call _ .Exit => true
  | .signal _ => true
  | .osExit _ => true
  | _ => false

/-- The string `Name` returns for a non-nil value. -/
def Service.displayName (s : Service) : String :=
  s.namer.getD s.type.String

/-- The events of one `Name` call on a non-nil value. -/
def nameEvents (s : Service) : List Event :=
  match s.namer with
  | some _ => [.call s .Name]
  | none => []

/-- The line `Log` prints for a message. -/
def logLine (c : Color) (message : String) : Event :=
  .println (c.HiYellowString "Runner: " ++ " " ++ message)

/-- The events of `Add` for a non-nil service. -/
def addEvents (c : Color) (s : Service) : List Event :=
  nameEvents s ++ [logLine c ("Adding service " ++ c.HiMagentaString s.displayName)]

/-- The events of one iteration of the loop of `InitServices` on a non-nil
entry: the `Init` call when there is one, then the line. -/
def initEvents (c : Color) (s : Service) : List Event :=
  (if s.initiator then [.call s .Init] else []) ++ nameEvents s ++
    [logLine c ("Service " ++ c.CyanString s.displayName ++ " initialized")]

/-- The events of one iteration of the launch loop of `Run` on a non-nil entry:
the launching line, the start when the entry is an `IRunner`, the launched
line. -/
def launchEvents (c : Color) (s : Service) : List Event :=
  nameEvents s ++ [logLine c ("Service " ++ c.HiYellowString s.displayName ++ " launching...")] ++
    (if s.irunner then [.start s] else []) ++ nameEvents s ++
    [logLine c ("Service " ++ c.HiGreenString s.displayName ++ " launched")]

/-- The events of one iteration of the loop of `Exit`. -/
def exitEvents (v : Value) : List Event :=
  match assertIRunner v with
  | some s => [.call s .Exit]
  | none => []

/-- The events of `Run` on a registry of non-nil entries, up to the point where
it waits for a signal. -/
def runEvents (c : Color) (svcs : List Service) : List Event :=
  svcs.flatMap (initEvents c) ++ [logLine c "Starting to run services"] ++
    svcs.flatMap (launchEvents c) ++
    [.println ".........................................................",
     .notify [.SIGINT, .SIGTERM], .await]

/-- The events of `Run` once a signal has arrived. -/
def shutdownEvents (c : Color) (sig : Signal) (reg : List Value) : List Event :=
  [.signal sig] ++ reg.flatMap exitEvents ++
    [logLine c (c.HiGreenString "Exiting" ++ " OK"), .osExit 0]

/-- The same service with an `Exit` that returns a nil error. -/
def Service.succeeding (s : Service) : Service :=
  { s with exitErr := none }

/-- A computation that leaves the receiver as it found it. -/
def Preserves {α : Type} (m : Exec α) : Prop :=
  ∀ r, (m r).runner = r

/-- Service A of the scenario: named "A", with `Init`, `Run` and `Exit`. -/
def svcA : Service :=
  ⟨.pointer (.defined "main" "A"), 1, some "A", true, true, none⟩

/-- Service B of the scenario: `Run` and `Exit` only; its `Exit` fails. -/
def svcB : Service :=
  ⟨.pointer (.defined "main" "B"), 2, none, false, true, some "close: timeout"⟩

/-- Service A as an `IRunner`. -/
def argA : IRunner := IRunner.of svcA rfl

/-- Service B as an `IRunner`. -/
def argB : IRunner := IRunner.of svcB rfl

/-! ## The execution monad -/

theorem bind_apply {α β : Type} (m : Exec α) (f : α → Exec β) (r : Runner) :
    (m >>= f) r = Exec.bind m f r := rfl

theorem pure_apply {α : Type} (a : α) (r : Runner) :
    (pure a : Exec α) r = ⟨.returned a, r, []⟩ := rfl

theorem bind_of_returned {α β : Type} {m : Exec α} {f : α → Exec β} {r r1 : Runner}
    {a : α} {t1 : List Event} (h : m r = ⟨.returned a, r1, t1⟩) :
    (m >>= f) r = ⟨(f a r1).status, (f a r1).runner, t1 ++ (f a r1).trace⟩ := by
  simp [bind_apply, Exec.bind, h]

theorem forRange_returned (body : Value → Exec Unit) (ev : Value → List Event) :
    ∀ (xs : List Value), (∀ x ∈ xs, ∀ r, body x r = ⟨.returned (), r, ev x⟩) →
      ∀ r, forRange xs body r = ⟨.returned (), r, xs.flatMap ev⟩
  | [], _, r => rfl
  | x :: rest, h, r => by
    have h1 := h x (List.mem_cons_self x rest) r
    have h2 := forRange_returned body ev rest
      (fun y hy => h y (List.mem_cons_of_mem x hy)) r
    simp [forRange, bind_of_returned h1, h2]

theorem forRange_some (body : Value → Exec Unit) (ev : Service → List Event)
    (h : ∀ s r, body (some s) r = ⟨.returned (), r, ev s⟩) :
    ∀ (svcs : List Service) (r : Runner),
      forRange (svcs.map some) body r = ⟨.returned (), r, svcs.flatMap ev⟩
  | [], r => rfl
  | s :: rest, r => by
    simp [forRange, bind_of_returned (h s r), forRange_some body ev h rest]

/-! ## Closed forms of the methods -/

theorem name_some (s : Service) (r : Runner) :
    Runner.Name (some s) r = ⟨.returned s.displayName, r, nameEvents s⟩ := by
  cases hn : s.namer <;>
    simp [Runner.Name, assertINamer, hn, typeString, reflectTypeOf, callName, emit,
      bind_apply, Exec.bind, pure_apply, Exec.pure, Service.displayName, nameEvents]

theorem name_nil (r : Runner) :
    Runner.Name none r = ⟨.panicked nilDereference, r, []⟩ := rfl

theorem log_apply (c : Color) (m : String) (r : Runner) :
    Runner.Log c m r = ⟨.returned (), r, [logLine c m]⟩ := by
  simp [Runner.Log, fmtPrintln, emit, logLine, String.intercalate, String.intercalate.go]

theorem initBody_some (c : Color) (s : Service) (r : Runner) :
    (do
      match assertInitiator (some s) with
      | some s => callInit s
      | none => pure ()
      let name ← Runner.Name (some s)
      Runner.Log c ("Service " ++ c.CyanString name ++ " initialized") : Exec Unit) r
      = ⟨.returned (), r, initEvents c s⟩ := by
  cases hi : s.initiator <;>
    simp [assertInitiator, hi, callInit, emit, bind_apply, Exec.bind, pure_apply, name_some,
      log_apply, initEvents]

theorem initServices_some (c : Color) (svcs : List Service) (lg : Option LoggerRef) :
    Runner.InitServices c ⟨svcs.map some, lg⟩
      = ⟨.returned (), ⟨svcs.map some, lg⟩, svcs.flatMap (initEvents c)⟩ := by
  have hg : getServices ⟨svcs.map some, lg⟩
      = ⟨.returned (svcs.map some), ⟨svcs.map some, lg⟩, []⟩ := rfl
  unfold Runner.InitServices
  rw [bind_of_returned hg, forRange_some _ (initEvents c) (initBody_some c)]
  simp

theorem launchBody_some (c : Color) (s : Service) (r : Runner) :
    (do
      let name ← Runner.Name (some s)
      Runner.Log c ("Service " ++ c.HiYellowString name ++ " launching...")
      match assertIRunner (some s) with
      | some s => goRun s
      | none => pure ()
      let name ← Runner.Name (some s)
      Runner.Log c ("Service " ++ c.HiGreenString name ++ " launched") : Exec Unit) r
      = ⟨.returned (), r, launchEvents c s⟩ := by
  cases hi : s.irunner <;>
    simp [assertIRunner, hi, goRun, emit, bind_apply, Exec.bind, pure_apply, name_some,
      log_apply, launchEvents]

theorem launch_some (c : Color) (svcs : List Service) (lg : Option LoggerRef) :
    Runner.launch c ⟨svcs.map some, lg⟩
      = ⟨.returned (), ⟨svcs.map some, lg⟩, svcs.flatMap (launchEvents c)⟩ := by
  have hg : getServices ⟨svcs.map some, lg⟩
      = ⟨.returned (svcs.map some), ⟨svcs.map some, lg⟩, []⟩ := rfl
  unfold Runner.launch
  rw [bind_of_returned hg, forRange_some _ (launchEvents c) (launchBody_some c)]
  simp

theorem exitBody_apply (v : Value) (r : Runner) :
    (match assertIRunner v with
      | some s => do
        let _ ← callExit s
        pure ()
      | none => pure () : Exec Unit) r
      = ⟨.returned (), r, exitEvents v⟩ := by
  cases hv : assertIRunner v <;>
    simp [callExit, emit, bind_apply, Exec.bind, pure_apply, Exec.pure, exitEvents, hv]

theorem exit_apply (r : Runner) :
    Runner.Exit r = ⟨.returned (), r, r.Services.flatMap exitEvents⟩ := by
  have hg : getServices r = ⟨.returned r.Services, r, []⟩ := rfl
  unfold Runner.Exit
  rw [bind_of_returned hg, forRange_returned _ exitEvents r.Services
    (fun x _ r => exitBody_apply x r)]
  simp

theorem run_blocked (c : Color) (svcs : List Service) (lg : Option LoggerRef) :
    Runner.Run c none ⟨svcs.map some, lg⟩
      = ⟨.blocked, ⟨svcs.map some, lg⟩, runEvents c svcs⟩ := by
  unfold Runner.Run
  rw [bind_of_returned (initServices_some c svcs lg)]
  rw [bind_of_returned (log_apply c _ _)]
  rw [bind_of_returned (launch_some c svcs lg)]
  simp [bind_apply, Exec.bind, fmtPrintln, emit, awaitSignal, runEvents, String.intercalate,
    String.intercalate.go]

theorem run_signalled (c : Color) (sig : Signal) (svcs : List Service)
    (lg : Option LoggerRef) :
    Runner.Run c (some sig) ⟨svcs.map some, lg⟩
      = ⟨.exited 0, ⟨svcs.map some, lg⟩,
          runEvents c svcs ++ shutdownEvents c sig (svcs.map some)⟩ := by
  unfold Runner.Run
  rw [bind_of_returned (initServices_some c svcs lg)]
  rw [bind_of_returned (log_apply c _ _)]
  rw [bind_of_returned (launch_some c svcs lg)]
  simp [bind_apply, Exec.bind, fmtPrintln, emit, awaitSignal, runEvents, String.intercalate,
    String.intercalate.go, exit_apply, log_apply, osExit, shutdownEvents]


theorem intro_apply (c : Color) (r : Runner) :
    Runner.Intro c r = ⟨.returned (), r,
      [.println "\n=========================================================",
       .println ("\n\t " ++ " " ++ c.HiCyanString "Runner service" ++ " " ++ " " ++ " " ++ v),
       .println "\n========================================================="]⟩ := by
  simp [Runner.Intro, fmtPrintln, emit, bind_apply, Exec.bind, String.intercalate,
    String.intercalate.go]

theorem new_runner (c : Color) : (New c).runner = Runner.zero := by
  simp [New, intro_apply]

theorem add_some (c : Color) (a : IRunner) (s : Service) (h : a.val = some s) (r : Runner) :
    Runner.Add c a r
      = ⟨.returned (), ⟨r.Services ++ [some s], r.Logger⟩, addEvents c s⟩ := by
  unfold Runner.Add
  rw [h, bind_of_returned (name_some s r), bind_of_returned (log_apply c _ _)]
  simp [bind_apply, Exec.bind, getServices, setServices, addEvents]

theorem add_nil (c : Color) (a : IRunner) (h : a.val = none) (r : Runner) :
    Runner.Add c a r = ⟨.panicked nilDereference, r, []⟩ := by
  unfold Runner.Add
  simp [h, bind_apply, Exec.bind, name_nil]

theorem addAll_some (c : Color) :
    ∀ (args : List IRunner), (∀ a ∈ args, a.val ≠ none) → ∀ r,
      addAll c args r
        = ⟨.returned (), ⟨r.Services ++ args.map IRunner.val, r.Logger⟩,
            (args.filterMap IRunner.val).flatMap (addEvents c)⟩
  | [], _, r => by simp [addAll, pure_apply]
  | a :: rest, h, r => by
    have ha : a.val ≠ none := h a (List.mem_cons_self a rest)
    obtain ⟨s, hs⟩ := Option.ne_none_iff_exists'.mp ha
    have h2 := addAll_some c rest (fun y hy => h y (List.mem_cons_of_mem a hy))
    simp [addAll, bind_of_returned (add_some c a s hs r), h2, hs]

theorem map_val_eq (args : List IRunner) (h : ∀ a ∈ args, a.val ≠ none) :
    args.map IRunner.val = (args.filterMap IRunner.val).map some := by
  induction args with
  | nil => rfl
  | cons a rest ih =>
    have ha : a.val ≠ none := h a (List.mem_cons_self a rest)
    obtain ⟨s, hs⟩ := Option.ne_none_iff_exists'.mp ha
    simp [hs, List.filterMap_cons, ih (fun y hy => h y (List.mem_cons_of_mem a hy))]

theorem registered_some (c : Color) (args : List IRunner) (h : ∀ a ∈ args, a.val ≠ none) :
    registered c args
      = ⟨.returned (), ⟨(args.filterMap IRunner.val).map some, none⟩,
          (args.filterMap IRunner.val).flatMap (addEvents c)⟩ := by
  simp [registered, new_runner, addAll_some c args h, Runner.zero, map_val_eq args h]


/-! ## Observations of the event blocks -/

theorem initCalls_append (t u : List Event) :
    initCalls (t ++ u) = initCalls t ++ initCalls u := by
  simp [initCalls]

theorem starts_append (t u : List Event) : starts (t ++ u) = starts t ++ starts u := by
  simp [starts]

theorem stops_append (t u : List Event) : stops (t ++ u) = stops t ++ stops u := by
  simp [stops]

theorem initCalls_initEvents (c : Color) (s : Service) :
    initCalls (initEvents c s) = if s.initiator then [s] else [] := by
  cases hi : s.initiator <;> cases hn : s.namer <;>
    simp [initCalls, initEvents, nameEvents, logLine, hi, hn]

theorem starts_launchEvents (c : Color) (s : Service) :
    starts (launchEvents c s) = if s.irunner then [s] else [] := by
  cases hi : s.irunner <;> cases hn : s.namer <;>
    simp [starts, launchEvents, nameEvents, logLine, hi, hn]

theorem starts_initEvents (c : Color) (s : Service) : starts (initEvents c s) = [] := by
  cases hi : s.initiator <;> cases hn : s.namer <;>
    simp [starts, initEvents, nameEvents, logLine, hi, hn]

theorem initCalls_launchEvents (c : Color) (s : Service) :
    initCalls (launchEvents c s) = [] := by
  cases hi : s.irunner <;> cases hn : s.namer <;>
    simp [initCalls, launchEvents, nameEvents, logLine, hi, hn]

theorem stops_exitEvents (v : Value) : stops (exitEvents v) = (assertIRunner v).toList := by
  cases hv : assertIRunner v <;> simp [stops, exitEvents, hv]

theorem initCalls_flatMap (c : Color) (svcs : List Service) :
    initCalls (svcs.flatMap (initEvents c)) = svcs.filter (fun s => s.initiator) := by
  induction svcs with
  | nil => rfl
  | cons s rest ih =>
    cases hi : s.initiator <;>
      simp [List.flatMap_cons, initCalls_append, initCalls_initEvents, ih, hi]

theorem starts_flatMap_launch (c : Color) (svcs : List Service) :
    starts (svcs.flatMap (launchEvents c)) = svcs.filter (fun s => s.irunner) := by
  induction svcs with
  | nil => rfl
  | cons s rest ih =>
    cases hi : s.irunner <;>
      simp [List.flatMap_cons, starts_append, starts_launchEvents, ih, hi]

theorem starts_flatMap_init (c : Color) (svcs : List Service) :
    starts (svcs.flatMap (initEvents c)) = [] := by
  induction svcs with
  | nil => rfl
  | cons s rest ih => simp [List.flatMap_cons, starts_append, starts_initEvents, ih]

theorem initCalls_flatMap_launch (c : Color) (svcs : List Service) :
    initCalls (svcs.flatMap (launchEvents c)) = [] := by
  induction svcs with
  | nil => rfl
  | cons s rest ih => simp [List.flatMap_cons, initCalls_append, initCalls_launchEvents, ih]

theorem stops_flatMap_exit (reg : List Value) :
    stops (reg.flatMap exitEvents) = reg.filterMap assertIRunner := by
  induction reg with
  | nil => rfl
  | cons v rest ih =>
    cases hv : assertIRunner v <;>
      simp [List.flatMap_cons, stops_append, stops_exitEvents, ih, hv, List.filterMap_cons]

theorem mem_initCalls {t : List Event} {s : Service} :
    s ∈ initCalls t ↔ Event.call s .Init ∈ t := by
  constructor
  · intro h
    obtain ⟨e, he, hs⟩ := List.mem_filterMap.mp h
    cases e with
    | call s1 m => cases m <;> simp at hs; subst hs; exact he
    | _ => simp at hs
  · intro h
    exact List.mem_filterMap.mpr ⟨_, h, rfl⟩

theorem mem_starts {t : List Event} {s : Service} :
    s ∈ starts t ↔ Event.start s ∈ t := by
  constructor
  · intro h
    obtain ⟨e, he, hs⟩ := List.mem_filterMap.mp h
    cases e with
    | start s1 => simp at hs; subst hs; exact he
    | _ => simp at hs
  · intro h
    exact List.mem_filterMap.mpr ⟨_, h, rfl⟩

theorem mem_stops {t : List Event} {s : Service} :
    s ∈ stops t ↔ Event.call s .Exit ∈ t := by
  constructor
  · intro h
    obtain ⟨e, he, hs⟩ := List.mem_filterMap.mp h
    cases e with
    | call s1 m => cases m <;> simp at hs; subst hs; exact he
    | _ => simp at hs
  · intro h
    exact List.mem_filterMap.mpr ⟨_, h, rfl⟩

/-- In a trace `t ++ u`, an event found only in `t` comes before an event found
only in `u`. -/
theorem before_of_split (t u : List Event) (e1 e2 : Event) (h1 : e1 ∉ u) (h2 : e2 ∉ t)
    (i j : Nat) (hi : (t ++ u)[i]? = some e1) (hj : (t ++ u)[j]? = some e2) : i < j := by
  have hit : i < t.length := by
    by_contra hge
    rw [List.getElem?_append_right (Nat.le_of_not_lt hge)] at hi
    exact h1 (List.getElem?_mem hi)
  have hjt : t.length ≤ j := by
    by_contra hlt
    rw [List.getElem?_append_left (Nat.lt_of_not_le hlt)] at hj
    exact h2 (List.getElem?_mem hj)
  omega


/-! ## Frame: what leaves the receiver alone -/

theorem preserves_bind {α β : Type} {m : Exec α} {f : α → Exec β}
    (hm : Preserves m) (hf : ∀ a, Preserves (f a)) : Preserves (m >>= f) := by
  intro r
  have h := hm r
  rw [bind_apply]
  unfold Exec.bind
  rcases hmr : m r with ⟨st, r1, t1⟩
  rw [hmr] at h
  simp only at h
  subst h
  cases st with
  | returned a => exact hf a r1
  | panicked msg => rfl
  | blocked => rfl
  | exited code => rfl

theorem preserves_pure {α : Type} (a : α) : Preserves (pure a : Exec α) := fun _ => rfl

theorem preserves_emit (e : Event) : Preserves (emit e) := fun _ => rfl

theorem preserves_println (args : List String) : Preserves (fmtPrintln args) := fun _ => rfl

theorem preserves_log (c : Color) (m : String) : Preserves (Runner.Log c m) := fun _ => rfl

theorem preserves_getServices : Preserves getServices := fun _ => rfl

theorem preserves_name (v : Value) : Preserves (Runner.Name v) := by
  intro r
  cases v with
  | none => rfl
  | some s => rw [name_some]

theorem preserves_forRange (body : Value → Exec Unit) (h : ∀ x, Preserves (body x)) :
    ∀ xs : List Value, Preserves (forRange xs body)
  | [] => preserves_pure ()
  | x :: rest => by
    unfold forRange
    exact preserves_bind (h x) (fun _ => preserves_forRange body h rest)

theorem preserves_initServices (c : Color) : Preserves (Runner.InitServices c) := by
  unfold Runner.InitServices
  refine preserves_bind preserves_getServices (fun xs => preserves_forRange _ (fun x => ?_) xs)
  dsimp only
  cases assertInitiator x with
  | none =>
    exact preserves_bind (preserves_pure ()) (fun _ =>
      preserves_bind (preserves_name x) (fun _ => preserves_log c _))
  | some s =>
    exact preserves_bind (preserves_emit _) (fun _ =>
      preserves_bind (preserves_name x) (fun _ => preserves_log c _))

theorem preserves_launch (c : Color) : Preserves (Runner.launch c) := by
  unfold Runner.launch
  refine preserves_bind preserves_getServices (fun xs => preserves_forRange _ (fun x => ?_) xs)
  refine preserves_bind (preserves_name x) (fun _ => preserves_bind (preserves_log c _)
    (fun _ => ?_))
  dsimp only
  cases assertIRunner x with
  | none =>
    exact preserves_bind (preserves_pure ()) (fun _ =>
      preserves_bind (preserves_name x) (fun _ => preserves_log c _))
  | some s =>
    exact preserves_bind (preserves_emit _) (fun _ =>
      preserves_bind (preserves_name x) (fun _ => preserves_log c _))

theorem preserves_exit : Preserves Runner.Exit := by
  intro r
  rw [exit_apply]

theorem preserves_awaitSignal (env : Option Signal) : Preserves (awaitSignal env) := by
  intro r
  cases env <;> rfl

theorem preserves_run (c : Color) (env : Option Signal) : Preserves (Runner.Run c env) := by
  unfold Runner.Run
  exact preserves_bind (preserves_initServices c) (fun _ =>
    preserves_bind (preserves_log c _) (fun _ =>
    preserves_bind (preserves_launch c) (fun _ =>
    preserves_bind (preserves_println _) (fun _ =>
    preserves_bind (preserves_emit _) (fun _ =>
    preserves_bind (preserves_awaitSignal env) (fun _ =>
    preserves_bind preserves_exit (fun _ =>
    preserves_bind (preserves_log c _) (fun _ => fun _ => rfl))))))))

/-! ## Where the events of each phase can occur -/

theorem late_initEvents (c : Color) (s : Service) : ∀ e ∈ initEvents c s, e.late = false := by
  cases hi : s.initiator <;> cases hn : s.namer <;>
    simp [initEvents, nameEvents, logLine, hi, hn, Event.late]

theorem late_launchEvents (c : Color) (s : Service) :
    ∀ e ∈ launchEvents c s, e.late = false := by
  cases hi : s.irunner <;> cases hn : s.namer <;>
    simp [launchEvents, nameEvents, logLine, hi, hn, Event.late]

theorem late_runEvents (c : Color) (svcs : List Service) :
    ∀ e ∈ runEvents c svcs, e.late = false := by
  intro e he
  simp only [runEvents, List.mem_append, List.mem_flatMap] at he
  rcases he with ((⟨s, _, hs⟩ | he) | ⟨s, _, hs⟩) | he
  · exact late_initEvents c s e hs
  · simp [logLine] at he; subst he; rfl
  · exact late_launchEvents c s e hs
  · simp at he
    rcases he with he | he | he <;> subst he <;> rfl

theorem exitEvents_flatMap_some (svcs : List Service) (h : ∀ s ∈ svcs, s.irunner = true) :
    (svcs.map some).flatMap exitEvents = svcs.map (fun s => Event.call s .Exit) := by
  induction svcs with
  | nil => rfl
  | cons s rest ih =>
    have hs : s.irunner = true := h s (List.mem_cons_self s rest)
    simp [List.flatMap_cons, exitEvents, assertIRunner, hs,
      ih (fun y hy => h y (List.mem_cons_of_mem s hy))]

theorem stops_map_exit (svcs : List Service) :
    stops (svcs.map (fun s => Event.call s .Exit)) = svcs := by
  induction svcs with
  | nil => rfl
  | cons s rest ih =>
    have h : stops (Event.call s .Exit :: rest.map (fun s => Event.call s .Exit))
        = s :: stops (rest.map (fun s => Event.call s .Exit)) := rfl
    rw [List.map_cons, h, ih]

theorem stops_runEvents (c : Color) (svcs : List Service) : stops (runEvents c svcs) = [] := by
  refine List.eq_nil_iff_forall_not_mem.mpr (fun s hs => ?_)
  have h := late_runEvents c svcs _ (mem_stops.mp hs)
  simp [Event.late] at h

theorem starts_runEvents (c : Color) (svcs : List Service) (h : ∀ s ∈ svcs, s.irunner = true) :
    starts (runEvents c svcs) = svcs := by
  simp only [runEvents, starts_append, starts_flatMap_init, starts_flatMap_launch]
  simpa [starts, logLine] using h

theorem runEvents_split (c : Color) (svcs : List Service) :
    runEvents c svcs = svcs.flatMap (initEvents c) ++
      ([logLine c "Starting to run services"] ++ svcs.flatMap (launchEvents c) ++
        [.println ".........................................................",
         .notify [.SIGINT, .SIGTERM], .await]) := by
  simp [runEvents, List.append_assoc]

theorem args_empty_hyp : ∀ a ∈ ([] : List IRunner), a.val ≠ none := by
  intro a ha
  cases ha

theorem args_AB_hyp : ∀ a ∈ [argA, argB], a.val ≠ none := by
  intro a ha
  simp at ha
  rcases ha with ha | ha <;> subst ha <;> decide

theorem count_map_some (svcs : List Service) (s : Service) :
    (svcs.map some).count (some s) = svcs.count s := by
  induction svcs with
  | nil => rfl
  | cons a rest ih => simp [List.count_cons, ih]

theorem irunner_of_args (args : List IRunner) :
    ∀ s ∈ args.filterMap IRunner.val, s.irunner = true := by
  intro s hs
  obtain ⟨a, _, ha⟩ := List.mem_filterMap.mp hs
  exact a.impl s ha

theorem typeString_ne_empty (t : GoType) : t.String ≠ "" := by
  have hlen : 0 < t.String.length := by
    cases t with
    | basic k => cases k <;> decide
    | defined pkg name =>
      simp only [GoType.String, String.length_append]
      have : (".").length = 1 := rfl
      omega
    | pointer elem =>
      simp only [GoType.String, String.length_append]
      have : ("*").length = 1 := rfl
      omega
    | slice elem =>
      simp only [GoType.String, String.length_append]
      have : ("[]").length = 2 := rfl
      omega
  intro h
  rw [h] at hlen
  exact absurd hlen (by decide)


/-! ## The properties -/

/-- C2: on a registry of services, `InitServices` returns, and the sequence of
`Init` calls it makes is the registry filtered to the entries that implement
`Initiator`, in registration order: one call per such entry, none on the
others. -/
theorem initServices_calls_init_on_initiators (c : Color) (svcs : List Service)
    (lg : Option LoggerRef) :
    (Runner.InitServices c ⟨svcs.map some, lg⟩).status = .returned () ∧
    initCalls (Runner.InitServices c ⟨svcs.map some, lg⟩).trace
      = svcs.filter (fun s => s.initiator) := by
  rw [initServices_some]
  exact ⟨rfl, initCalls_flatMap c svcs⟩

/-- C3: for every registry, `Exit` returns and its trace is one `Exit` call
(stop) per entry that implements `IRunner`, in registration order, and nothing
else. -/
theorem exit_stops_every_irunner_in_order (r : Runner) :
    (Runner.Exit r).status = .returned () ∧
    (Runner.Exit r).trace
      = (r.Services.filterMap assertIRunner).map (fun s => Event.call s .Exit) ∧
    stops (Runner.Exit r).trace = r.Services.filterMap assertIRunner := by
  rw [exit_apply]
  refine ⟨rfl, ?_, stops_flatMap_exit r.Services⟩
  show r.Services.flatMap exitEvents = _
  induction r.Services with
  | nil => rfl
  | cons v rest ih =>
    cases hv : assertIRunner v <;> simp [List.flatMap_cons, exitEvents, hv, ih, List.filterMap_cons]

/-- C5: for every service (a non-nil value), `Name` returns the declared name
when the service implements `INamer` and the string of its runtime type
otherwise, and that string is not empty. -/
theorem name_declared_or_type_string (s : Service) (r : Runner) :
    (Runner.Name (some s) r).status = .returned (s.namer.getD s.type.String) ∧
    s.type.String ≠ "" := by
  rw [name_some]
  exact ⟨rfl, typeString_ne_empty s.type⟩

/-- C7 (the code at the failing input): `Add` of the nil `IRunner` panics in
`Name`, on the nil `reflect.Type`, before anything is printed and before the
append: the registry is left as it was. -/
theorem add_nil_panics (c : Color) (r : Runner) :
    Runner.Add c IRunner.nil r = ⟨.panicked nilDereference, r, []⟩ :=
  add_nil c IRunner.nil rfl r

/-- C9: for every registry and whatever errors the services return from `Exit`,
`Exit` returns normally (it has no error result), stops every entry that
implements `IRunner`, and the sequence of stops is the one of the same registry
with every stop succeeding. -/
theorem exit_continues_past_failing_stops (r : Runner) :
    (Runner.Exit r).status = .returned () ∧
    stops (Runner.Exit r).trace = r.Services.filterMap assertIRunner ∧
    (stops (Runner.Exit r).trace).map Service.succeeding
      = stops (Runner.Exit ⟨r.Services.map (Option.map Service.succeeding), r.Logger⟩).trace := by
  rw [exit_apply, exit_apply, stops_flatMap_exit, stops_flatMap_exit]
  refine ⟨rfl, rfl, ?_⟩
  show List.map Service.succeeding (r.Services.filterMap assertIRunner) = _
  induction r.Services with
  | nil => rfl
  | cons v rest ih =>
    cases v with
    | none => simpa [List.filterMap_cons, assertIRunner] using ih
    | some s =>
      cases hi : s.irunner <;>
        simp [List.filterMap_cons, assertIRunner, hi, Service.succeeding, ih]

/-- C10: `InitServices`, the launch loop, `Run` (with or without a signal) and
`Exit` leave the receiver as they found it, `Services` and `Logger` alike, and a
second `Exit` has the trace of the first. -/
theorem lifecycle_leaves_registry_unchanged (c : Color) (env : Option Signal) (r : Runner) :
    (Runner.InitServices c r).runner = r ∧
    (Runner.launch c r).runner = r ∧
    (Runner.Run c env r).runner = r ∧
    (Runner.Exit r).runner = r ∧
    (Runner.Exit (Runner.Exit r).runner).trace = (Runner.Exit r).trace := by
  refine ⟨preserves_initServices c r, preserves_launch c r, preserves_run c env r,
    preserves_exit r, ?_⟩
  rw [preserves_exit r]


/-- C6: `Add` of a service returns with the service appended at the end of
`Services` (one entry more, the earlier entries where they were, `Logger`
untouched); so after `Add(s1), ..., Add(sn)` on a new runner the registry is
`[s1, ..., sn]`, and `InitServices`, `Run` and `Exit` go through it in that
order. -/
theorem add_appends_at_end (c : Color) (r : Runner) (a : IRunner) (args : List IRunner)
    (ha : a.val ≠ none) (hargs : ∀ x ∈ args, x.val ≠ none) :
    (Runner.Add c a r).status = .returned () ∧
    (Runner.Add c a r).runner.Services = r.Services ++ [a.val] ∧
    (Runner.Add c a r).runner.Services.length = r.Services.length + 1 ∧
    (∀ i, i < r.Services.length → (Runner.Add c a r).runner.Services[i]? = r.Services[i]?) ∧
    (Runner.Add c a r).runner.Logger = r.Logger ∧
    (registered c args).status = .returned () ∧
    (registered c args).runner.Services = args.map IRunner.val ∧
    (Runner.InitServices c (registered c args).runner).trace
      = (args.filterMap IRunner.val).flatMap (initEvents c) ∧
    (starts (Runner.Run c none (registered c args).runner).trace).map some
      = args.map IRunner.val ∧
    (stops (Runner.Exit (registered c args).runner).trace).map some
      = args.map IRunner.val := by
  obtain ⟨s, hs⟩ := Option.ne_none_iff_exists'.mp ha
  have hir := irunner_of_args args
  rw [add_some c a s hs r, registered_some c args hargs, initServices_some, run_blocked,
    exit_apply, map_val_eq args hargs, hs]
  refine ⟨rfl, rfl, by simp, ?_, rfl, rfl, rfl, rfl, ?_, ?_⟩
  · intro i hi
    exact List.getElem?_append_left hi
  · congr 1
    simp only [runEvents, starts_append, starts_flatMap_init, starts_flatMap_launch]
    simpa [starts, logLine] using hir
  · congr 1
    rw [exitEvents_flatMap_some _ hir]
    exact stops_map_exit _

/-- C6 at the registry `[A]` and the services A and B. -/
theorem add_appends_at_end_witness :
    argB.val ≠ none ∧ (∀ x ∈ [argA, argB], x.val ≠ none) ∧
    (Runner.Add Color.plain argB ⟨[some svcA], none⟩).runner.Services
      = [some svcA, some svcB] ∧
    (registered Color.plain [argA, argB]).runner.Services = [some svcA, some svcB] :=
  have ha : argB.val ≠ none := by decide
  have hargs : ∀ x ∈ [argA, argB], x.val ≠ none := by
    intro x hx
    simp at hx
    rcases hx with hx | hx <;> subst hx <;> decide
  have h := add_appends_at_end Color.plain ⟨[some svcA], none⟩ argB [argA, argB] ha hargs
  ⟨ha, hargs, h.2.1, h.2.2.2.2.2.2.1⟩


/-- C1: for every registry built by `Add` calls on a new runner (the calls made
with non-nil services, the empty sequence included), `Run` without a signal
reaches the wait for the signal; up to there its trace has one start per
registered service, in registration order, and every `Init` call stands before
every start; with no service registered the trace touches no service. -/
theorem run_starts_each_service_after_every_init (c : Color) (args : List IRunner)
    (h : ∀ a ∈ args, a.val ≠ none) :
    (registered c args).status = .returned () ∧
    (registered c args).runner.Services = args.map IRunner.val ∧
    (Runner.Run c none (registered c args).runner).status = .blocked ∧
    (Runner.Run c none (registered c args).runner).trace.getLast? = some .await ∧
    (starts (Runner.Run c none (registered c args).runner).trace).map some
      = args.map IRunner.val ∧
    (∀ (i j : Nat) (s t : Service),
      (Runner.Run c none (registered c args).runner).trace[i]? = some (Event.call s Method.Init) →
      (Runner.Run c none (registered c args).runner).trace[j]? = some (Event.start t) → i < j) ∧
    (args = [] →
      ∀ e ∈ (Runner.Run c none (registered c args).runner).trace, e.onService = false) := by
  have hir := irunner_of_args args
  rw [registered_some c args h, run_blocked, map_val_eq args h]
  refine ⟨rfl, rfl, rfl, ?_, ?_, ?_, ?_⟩
  · show (runEvents c _).getLast? = _
    have hl : ∀ xs : List Event, (xs ++ [Event.println ".........................................................",
        Event.notify [.SIGINT, .SIGTERM], Event.await]).getLast? = some Event.await := by
      intro xs
      have := List.getLast?_concat (xs ++ [Event.println ".........................................................",
        Event.notify [.SIGINT, .SIGTERM]]) (a := Event.await)
      simp [List.append_assoc] at this
      simp [this]
    exact hl _
  · show List.map some (starts (runEvents c _)) = _
    rw [starts_runEvents c _ hir]
  · intro i j s t hi hj
    simp only [runEvents_split] at hi hj
    refine before_of_split _ _ _ _ ?_ ?_ i j hi hj
    · intro hmem
      have hs := mem_initCalls.mpr hmem
      rw [initCalls_append, initCalls_append, initCalls_flatMap_launch] at hs
      simp [initCalls, logLine] at hs
    · intro hmem
      have hs := mem_starts.mpr hmem
      simp [starts_flatMap_init] at hs
  · intro hnil e he
    subst hnil
    simp [runEvents, logLine] at he
    rcases he with he | he | he | he <;> subst he <;> rfl

/-- C1 at the empty registry and at the registry `[A, B]`. -/
theorem run_starts_each_service_after_every_init_witness :
    (∀ a ∈ ([] : List IRunner), a.val ≠ none) ∧
    (Runner.Run Color.plain none (registered Color.plain []).runner).status = .blocked ∧
    (∀ a ∈ [argA, argB], a.val ≠ none) ∧
    (starts (Runner.Run Color.plain none (registered Color.plain [argA, argB]).runner).trace).map
      some = [some svcA, some svcB] :=
  ⟨args_empty_hyp,
    (run_starts_each_service_after_every_init Color.plain [] args_empty_hyp).2.2.1,
    args_AB_hyp,
    (run_starts_each_service_after_every_init Color.plain [argA, argB] args_AB_hyp).2.2.2.2.1⟩


/-- C4 as stated fails: with the same service registered twice (`Add(A)`,
`Add(A)`) and SIGTERM, `Run` stops A twice before it exits, so "each service is
stopped at most once" does not hold for every registry. -/
theorem signal_stops_duplicate_registration_twice :
    stops (Runner.Run Color.plain (some .SIGTERM)
      (registered Color.plain [argA, argA]).runner).trace = [svcA, svcA] ∧
    ¬ (stops (Runner.Run Color.plain (some .SIGTERM)
      (registered Color.plain [argA, argA]).runner).trace).count svcA ≤ 1 := by
  decide

/-- C4, amended: for every registry built by `Add` calls on a new runner, when a
signal arrives `Run` continues the trace it has up to the wait with the signal,
one stop per registration in registration order, the exit-complete line and
`os.Exit(0)`; every stop stands before the process exit, every service is
stopped exactly as often as it is registered (once when registered once), and
every start stands before the signal. -/
theorem signal_stops_each_service_then_exits (c : Color) (sig : Signal) (args : List IRunner)
    (h : ∀ a ∈ args, a.val ≠ none) :
    (Runner.Run c (some sig) (registered c args).runner).status = .exited 0 ∧
    (Runner.Run c (some sig) (registered c args).runner).trace
      = (Runner.Run c none (registered c args).runner).trace ++ [Event.signal sig] ++
          (args.filterMap IRunner.val).map (fun s => Event.call s .Exit) ++
          [logLine c (c.HiGreenString "Exiting" ++ " OK"), Event.osExit 0] ∧
    (stops (Runner.Run c (some sig) (registered c args).runner).trace).map some
      = args.map IRunner.val ∧
    (∀ s : Service,
      (stops (Runner.Run c (some sig) (registered c args).runner).trace).count s
        = (args.map IRunner.val).count (some s)) ∧
    (∀ (i j : Nat) (s : Service) (code : Int),
      (Runner.Run c (some sig) (registered c args).runner).trace[i]?
        = some (Event.call s Method.Exit) →
      (Runner.Run c (some sig) (registered c args).runner).trace[j]?
        = some (Event.osExit code) → i < j) ∧
    (∀ (i j : Nat) (s : Service) (sg : Signal),
      (Runner.Run c (some sig) (registered c args).runner).trace[i]? = some (Event.start s) →
      (Runner.Run c (some sig) (registered c args).runner).trace[j]? = some (Event.signal sg) →
      i < j) := by
  have hir := irunner_of_args args
  rw [registered_some c args h, run_signalled, run_blocked, map_val_eq args h]
  simp only [shutdownEvents, exitEvents_flatMap_some _ hir]
  have hstops : stops (runEvents c (args.filterMap IRunner.val) ++
      ([Event.signal sig] ++ (args.filterMap IRunner.val).map (fun s => Event.call s .Exit) ++
        [logLine c (c.HiGreenString "Exiting" ++ " OK"), Event.osExit 0]))
      = args.filterMap IRunner.val := by
    rw [stops_append, stops_append, stops_append, stops_runEvents, stops_map_exit]
    simp [stops, logLine]
  refine ⟨trivial, by simp [List.append_assoc], ?_, ?_, ?_, ?_⟩
  · rw [hstops]
  · intro s
    rw [hstops, count_map_some]
  · intro i j s code hi hj
    have hsplit : runEvents c (args.filterMap IRunner.val) ++
        ([Event.signal sig] ++ (args.filterMap IRunner.val).map (fun s => Event.call s .Exit) ++
          [logLine c (c.HiGreenString "Exiting" ++ " OK"), Event.osExit 0])
        = (runEvents c (args.filterMap IRunner.val) ++ [Event.signal sig] ++
            (args.filterMap IRunner.val).map (fun s => Event.call s .Exit) ++
            [logLine c (c.HiGreenString "Exiting" ++ " OK")]) ++ [Event.osExit 0] := by
      simp [List.append_assoc]
    rw [hsplit] at hi hj
    refine before_of_split _ _ _ _ ?_ ?_ i j hi hj
    · simp
    · intro hmem
      have hm : Event.osExit code ∈ runEvents c (args.filterMap IRunner.val) := by
        simpa [logLine] using hmem
      have := late_runEvents c _ _ hm
      simp [Event.late] at this
  · intro i j s sg hi hj
    refine before_of_split _ _ _ _ ?_ ?_ i j hi hj
    · intro hmem
      simp [logLine] at hmem
    · intro hmem
      have := late_runEvents c _ _ hmem
      simp [Event.late] at this

/-- C4 at the registry `[A, B]` and SIGTERM: both services are stopped, A then
B, each once, and the process exits with status 0. -/
theorem signal_stops_each_service_then_exits_witness :
    (∀ a ∈ [argA, argB], a.val ≠ none) ∧
    (Runner.Run Color.plain (some .SIGTERM) (registered Color.plain [argA, argB]).runner).status
      = .exited 0 ∧
    (stops (Runner.Run Color.plain (some .SIGTERM)
      (registered Color.plain [argA, argB]).runner).trace).map some = [some svcA, some svcB] ∧
    (stops (Runner.Run Color.plain (some .SIGTERM)
      (registered Color.plain [argA, argB]).runner).trace).count svcA = 1 :=
  ⟨args_AB_hyp,
    (signal_stops_each_service_then_exits Color.plain .SIGTERM [argA, argB] args_AB_hyp).1,
    (signal_stops_each_service_then_exits Color.plain .SIGTERM [argA, argB] args_AB_hyp).2.2.1,
    ((signal_stops_each_service_then_exits Color.plain .SIGTERM [argA, argB]
      args_AB_hyp).2.2.2.1 svcA).trans (by decide)⟩

/-- C8: for every sequence of registered services the trace of the `Add` calls
followed by `Run`, up to the wait for the signal, is: one add line per service
in registration order, then one init line per entry in registry order (after
the `Init` call when the entry has one), then the line that opens the launch
phase, then per entry in registry order the launching line, the start and the
launched line, then the separator, the subscription and the wait. -/
theorem log_lines_follow_the_phases (c : Color) (args : List IRunner)
    (h : ∀ a ∈ args, a.val ≠ none) :
    (registered c args).trace ++ (Runner.Run c none (registered c args).runner).trace
      = (args.filterMap IRunner.val).flatMap (addEvents c) ++
        (args.filterMap IRunner.val).flatMap (initEvents c) ++
        [logLine c "Starting to run services"] ++
        (args.filterMap IRunner.val).flatMap (launchEvents c) ++
        [Event.println ".........................................................",
         Event.notify [.SIGINT, .SIGTERM], Event.await] := by
  rw [registered_some c args h, run_blocked]
  simp [runEvents, List.append_assoc]

/-- C8 at the scenario of the spec: A (named "A", with `Init`) and B (no `Name`,
no `Init`), colours off. -/
theorem log_lines_follow_the_phases_witness :
    (∀ a ∈ [argA, argB], a.val ≠ none) ∧
    (registered Color.plain [argA, argB]).trace ++
      (Runner.Run Color.plain none (registered Color.plain [argA, argB]).runner).trace
      = [Event.call svcA .Name,
         Event.println "Runner:  Adding service A",
         Event.println "Runner:  Adding service *main.B",
         Event.call svcA .Init,
         Event.call svcA .Name,
         Event.println "Runner:  Service A initialized",
         Event.println "Runner:  Service *main.B initialized",
         Event.println "Runner:  Starting to run services",
         Event.call svcA .Name,
         Event.println "Runner:  Service A launching...",
         Event.start svcA,
         Event.call svcA .Name,
         Event.println "Runner:  Service A launched",
         Event.println "Runner:  Service *main.B launching...",
         Event.start svcB,
         Event.println "Runner:  Service *main.B launched",
         Event.println ".........................................................",
         Event.notify [.SIGINT, .SIGTERM],
         Event.await] :=
  ⟨args_AB_hyp, (log_lines_follow_the_phases Color.plain [argA, argB] args_AB_hyp).trans
    (by decide)⟩

end GoRunner
